import Mathlib

/-!
Shallow embedding of `src/Freqs/freqs.cpp` (the whole program is one file).

Conventions of the embedding:
* bytes and codepoints are `Nat`; the C++ `uint8_t` inputs are always < 256 at
  call sites (stated as hypotheses where a theorem needs it), and `uint32_t`
  arithmetic that can overflow carries an explicit `% 2 ^ 32`;
* raw pointer/index accesses `buffer[i]` become `List.getD buffer i 0`; every
  access in the source is guarded by the same bounds test that guards it here;
* the C++ `while`/`for` loops become recursive functions; loops whose index
  advances by a computed amount (the decoding loop of `ReadUtfLetters`) take an
  explicit fuel argument equal to the number of remaining loop entries allowed.
  The fuel-exhaustion branch is a distinguished `outOfFuel` result, proved
  unreachable for the fuel used (`readLettersGo_no_outOfFuel` below);
* the two places where the source returns `true` while leaving its output
  parameters unassigned (the fall-through of `InterpretFirstUtfByte`) are a
  distinguished `unassignedTrue`/`undefBehavior` result, since the subsequent
  execution reads indeterminate values.
-/

/-- Result of `encoding::InterpretFirstUtfByte`.  `assigned` is `return true`
with both output parameters written; `invalidFalse` is the (dead) `return
false` branch; `unassignedTrue` is the final `return true` reached without
writing `*bytesCount` or `*letter`. -/
inductive FirstByteResult where
  | assigned (bytesCount : Nat) (letter : Nat)
  | invalidFalse
  | unassignedTrue
deriving DecidableEq, Repr

/-- The `while(byteIndex > 1)` loop of `InterpretFirstUtfByte`: scan bit
positions 5, 4, 3, 2 of the first byte for a zero bit; on failure fall
through to `return true` with nothing assigned. -/
def firstByteLoop (byte : Nat) : Nat → FirstByteResult
  | 0 => .unassignedTrue
  | 1 => .unassignedTrue
  | byteIndex + 2 =>
    if byte &&& (1 <<< (byteIndex + 2)) == 0 then
      .assigned (7 - (byteIndex + 2)) (byte &&& (255 >>> (8 - (byteIndex + 2))))
    else
      firstByteLoop byte (byteIndex + 1)

/-- Embedding of `encoding::InterpretFirstUtfByte` (freqs.cpp:11-43), including the dead
second `(byte & 128u) == 0` test. -/
def InterpretFirstUtfByte (byte : Nat) : FirstByteResult :=
  if byte &&& 128 == 0 then .assigned 1 byte
  else if byte &&& 128 == 0 then .invalidFalse
  else firstByteLoop byte 5

/-- Embedding of `encoding::InterpretNextUtfByte` (freqs.cpp:45-57): a continuation byte
must match `10xxxxxx`; the codepoint accumulator is `uint32_t`. -/
def InterpretNextUtfByte (letter : Nat) (byte : Nat) : Option Nat :=
  if byte &&& 128 == 0 || byte &&& 64 != 0 then none
  else some (((letter <<< 6) % 2 ^ 32) ||| (byte &&& (255 >>> 2)))

/-- Result of `encoding::ReadUtfLetter`.  `ok newIndex letter` is `return
true` with `*startIndex` advanced to `newIndex`; `fail` is `return false`;
`undefBehavior` is the path where `InterpretFirstUtfByte` returned `true`
without assigning `bytesCount`/`letter` and execution continues on
indeterminate values. -/
inductive ReadResult where
  | ok (newIndex : Nat) (letter : Nat)
  | fail
  | undefBehavior
deriving DecidableEq, Repr

/-- The `while(bytesCount-- > 1)` loop of `ReadUtfLetter` (freqs.cpp:73-84):
consume one continuation byte per iteration, then `++(*startIndex); return
true`. -/
def contLoop (buffer : List Nat) : Nat → Nat → Nat → ReadResult
  | 0, letter, startIndex => .ok (startIndex + 1) letter
  | 1, letter, startIndex => .ok (startIndex + 1) letter
  | bytesCount + 2, letter, startIndex =>
    if startIndex + 1 ≥ buffer.length then .fail
    else
      match InterpretNextUtfByte letter (buffer.getD (startIndex + 1) 0) with
      | none => .fail
      | some letter2 => contLoop buffer (bytesCount + 1) letter2 (startIndex + 1)

/-- Embedding of `encoding::ReadUtfLetter` (freqs.cpp:59-89). -/
def ReadUtfLetter (buffer : List Nat) (startIndex : Nat) : ReadResult :=
  if startIndex ≥ buffer.length then .fail
  else
    match InterpretFirstUtfByte (buffer.getD startIndex 0) with
    | .invalidFalse => .fail
    | .unassignedTrue => .undefBehavior
    | .assigned bytesCount letter => contLoop buffer bytesCount letter startIndex

/-- Embedding of `encoding::LetterInfo` (freqs.cpp:91-96): the byte span a decoded letter
occupied in the input buffer. -/
structure LetterInfo where
  bufferOffset : Nat
  bytesCount : Nat
deriving DecidableEq, Repr

/-- Result of `encoding::ReadUtfLetters`.  `outOfFuel` is the artificial
fuel-exhaustion branch of the embedding, proved unreachable for the fuel used
(`readLettersGo_no_outOfFuel`). -/
inductive LettersResult where
  | ok (letters : List Nat) (letterInfos : List LetterInfo)
  | fail
  | undefBehavior
  | outOfFuel
deriving DecidableEq, Repr

/-- The `while(byteIndex < bufferSize)` loop of `ReadUtfLetters`
(freqs.cpp:98-125).  The fuel counts the loop entries still allowed; each
entry consumes at least one byte, so `buffer.length` units suffice. -/
def readLettersGo (buffer : List Nat) : Nat → Nat → List Nat → List LetterInfo → LettersResult
  | 0, byteIndex, letters, letterInfos =>
    if byteIndex < buffer.length then .outOfFuel else .ok letters letterInfos
  | fuel + 1, byteIndex, letters, letterInfos =>
    if byteIndex < buffer.length then
      match ReadUtfLetter buffer byteIndex with
      | .fail => .fail
      | .undefBehavior => .undefBehavior
      | .ok newIndex letter =>
        readLettersGo buffer fuel newIndex (letters ++ [letter])
          (letterInfos ++ [⟨byteIndex, newIndex - byteIndex⟩])
    else .ok letters letterInfos

/-- Embedding of `encoding::ReadUtfLetters` (freqs.cpp:98-125), with `letterInfos`
requested (as `Main` does). -/
def ReadUtfLetters (buffer : List Nat) : LettersResult :=
  readLettersGo buffer buffer.length 0 [] []

/-- The local class `Alphabet` of `Main` (freqs.cpp:199-205). -/
structure Alphabet where
  upperCaseBegin : Nat
  lowerCaseBegin : Nat
  lowerCaseEnd : Nat
deriving DecidableEq, Repr

/-- The `alphabets` array of `Main` (freqs.cpp:210-217): English then
Russian, sorted by first letters. -/
def alphabets : List Alphabet :=
  [⟨65, 97, 122⟩, ⟨1040, 1072, 1104⟩]

/-- The loop body of the `IsAlpha` lambda (freqs.cpp:219-235). -/
def isAlphaLoop : List Alphabet → Nat → Bool
  | [], _ => false
  | a :: rest, letter =>
    if letter < a.upperCaseBegin then false
    else if letter < a.lowerCaseEnd then true
    else isAlphaLoop rest letter

/-- The `IsAlpha` lambda of `Main` (freqs.cpp:219-235). -/
def IsAlpha (letter : Nat) : Bool :=
  isAlphaLoop alphabets letter

/-- The inner `for(const auto& a : alphabets)` of the case-folding pass
(freqs.cpp:240-248); the `break` after the first matching descriptor is the
early return. -/
def foldLoop : List Alphabet → Nat → Nat
  | [], letter => letter
  | a :: rest, letter =>
    if a.upperCaseBegin ≤ letter ∧ letter < a.lowerCaseBegin then
      (letter + (a.lowerCaseBegin - a.upperCaseBegin)) % 2 ^ 32
    else foldLoop rest letter

/-- The per-letter effect of the case-folding pass of `Main`
(freqs.cpp:238-249). -/
def foldLetter (letter : Nat) : Nat :=
  foldLoop alphabets letter

/-- The local class `WordInfo` of `Main` (freqs.cpp:251-257). -/
structure WordInfo where
  startLetterIndex : Nat
  lettersCount : Nat
  entries : Nat
deriving DecidableEq, Repr

/-- The inner letter-comparison loop of `registerWord` (freqs.cpp:275-283):
compare `letters[i + k]` with `letters[j + k]` for `k < count`. -/
def sameLetters (letters : List Nat) : Nat → Nat → Nat → Bool
  | _, _, 0 => true
  | i, j, count + 1 =>
    if letters.getD i 0 == letters.getD j 0 then sameLetters letters (i + 1) (j + 1) count
    else false

/-- The `registerWord` lambda of `Main` (freqs.cpp:263-298): linear search
for an equal-content record, increment its `entries` on a hit, otherwise
append a fresh record with `entries = 1`. -/
def registerWord (letters : List Nat) : List WordInfo → Nat → Nat → List WordInfo
  | [], firstLetter, lettersCount => [⟨firstLetter, lettersCount, 1⟩]
  | word :: rest, firstLetter, lettersCount =>
    if word.lettersCount == lettersCount &&
        sameLetters letters firstLetter word.startLetterIndex word.lettersCount then
      ⟨word.startLetterIndex, word.lettersCount, word.entries + 1⟩ :: rest
    else
      word :: registerWord letters rest firstLetter lettersCount

/-- The word-gathering `for` loop of `Main` (freqs.cpp:300-324), including
the trailing "last word" registration.  `firstLetter = none` models the
sentinel `firstLetter == -1`; the fuel counts the remaining loop iterations
(the index advances by exactly one per iteration, so the initial fuel
`letters.length` is exact). -/
def gatherGo (letters : List Nat) : Nat → Nat → Option Nat → List WordInfo → List WordInfo
  | 0, _, firstLetter, words =>
    match firstLetter with
    | some fl => registerWord letters words fl (letters.length - fl)
    | none => words
  | fuel + 1, letterIndex, firstLetter, words =>
    if IsAlpha (letters.getD letterIndex 0) then
      gatherGo letters fuel (letterIndex + 1)
        (match firstLetter with | none => some letterIndex | some fl => some fl) words
    else
      match firstLetter with
      | some fl =>
        gatherGo letters fuel (letterIndex + 1) none
          (registerWord letters words fl (letterIndex - fl))
      | none => gatherGo letters fuel (letterIndex + 1) none words

/-- The whole word-gathering block of `Main` (freqs.cpp:259-325). -/
def gatherWords (letters : List Nat) : List WordInfo :=
  gatherGo letters letters.length 0 none []

/-- Embedding of `std::lexicographical_compare` over two index ranges of `letters`, as
used by the sort comparator (freqs.cpp:337-339). -/
def lexCompare (letters : List Nat) : Nat → Nat → Nat → Nat → Bool
  | _, _, _, 0 => false
  | _, 0, _, _ + 1 => true
  | i, ni + 1, j, nj + 1 =>
    if letters.getD i 0 < letters.getD j 0 then true
    else if letters.getD j 0 < letters.getD i 0 then false
    else lexCompare letters (i + 1) ni (j + 1) nj

/-- The sort comparator lambda of `Main` (freqs.cpp:328-343): `entries`
descending, ties broken by lexicographic comparison of the folded codepoint
ranges. -/
def cmpLt (letters : List Nat) (a b : WordInfo) : Bool :=
  if a.entries == b.entries then
    lexCompare letters a.startLetterIndex a.lettersCount b.startLetterIndex b.lettersCount
  else
    decide (a.entries > b.entries)

/-- Insert one record into an already sorted list, before the first element
it compares strictly less than. -/
def insertSorted (letters : List Nat) (w : WordInfo) : List WordInfo → List WordInfo
  | [] => [w]
  | x :: rest => if cmpLt letters w x then w :: x :: rest else x :: insertSorted letters w rest

/-- The `std::sort(words.begin(), words.end(), cmp)` call of `Main`
(freqs.cpp:328-343), modelled as insertion sort with the same comparator.
`std::sort` leaves the relative order of comparator-equivalent elements
unspecified; in this program any two distinct records in `words` compare
strictly (their folded codepoint contents differ, see the distinctness
invariant), so every comparison sort, including this one, produces the same
unique output order. -/
def sortWords (letters : List Nat) : List WordInfo → List WordInfo
  | [] => []
  | w :: rest => insertSorted letters w (sortWords letters rest)

/-- Decimal digits (ASCII codes) of `n / 10 ...`, the recursion behind
`decimalDigits`; the fuel is an upper bound on the digit count. -/
def digitsGo : Nat → Nat → List Nat
  | 0, _ => []
  | _ + 1, 0 => []
  | fuel + 1, n + 1 => digitsGo fuel ((n + 1) / 10) ++ [48 + (n + 1) % 10]

/-- The bytes `operator<<(std::ostream&, size_t)` writes for a count
(freqs.cpp:348): the decimal representation. -/
def decimalDigits (n : Nat) : List Nat :=
  if n = 0 then [48] else digitsGo (n + 1) n

/-- The bytes `output.write((const char*)buffer + li.bufferOffset,
li.bytesCount)` emits for one letter (freqs.cpp:354-357). -/
def letterSpan (buffer : List Nat) (li : LetterInfo) : List Nat :=
  (buffer.drop li.bufferOffset).take li.bytesCount

/-- The inner letter loop of the output stage (freqs.cpp:350-358): emit the
original byte span of each of the `count` letters starting at letter index
`start`. -/
def wordBytesGo (buffer : List Nat) (letterInfos : List LetterInfo) : Nat → Nat → List Nat
  | _, 0 => []
  | start, count + 1 =>
    letterSpan buffer (letterInfos.getD start ⟨0, 0⟩) ++
      wordBytesGo buffer letterInfos (start + 1) count

/-- All bytes the output stage writes for one word record. -/
def wordBytes (buffer : List Nat) (letterInfos : List LetterInfo) (w : WordInfo) : List Nat :=
  wordBytesGo buffer letterInfos w.startLetterIndex w.lettersCount

/-- The output loop of `Main` (freqs.cpp:346-361): per record the decimal
count, a space (32), the original word bytes, and `std::endl` (10). -/
def outputLines (buffer : List Nat) (letterInfos : List LetterInfo) : List WordInfo → List Nat
  | [] => []
  | w :: rest =>
    decimalDigits w.entries ++ [32] ++ wordBytes buffer letterInfos w ++ [10] ++
      outputLines buffer letterInfos rest

/-- Outcome of the pipeline on a loaded buffer. -/
inductive ProcResult where
  | success (out : List Nat)
  | formatError
  | undefBehavior
  | outOfFuel
deriving DecidableEq, Repr

/-- The pipeline of `Main` after the buffer is loaded (freqs.cpp:192-365):
decode, fold in place, gather words, sort, render output bytes. -/
def processBuffer (buffer : List Nat) : ProcResult :=
  match ReadUtfLetters buffer with
  | .fail => .formatError
  | .undefBehavior => .undefBehavior
  | .outOfFuel => .outOfFuel
  | .ok letters letterInfos =>
    let folded := letters.map foldLetter
    .success (outputLines buffer letterInfos (sortWords folded (gatherWords folded)))

/-- The environment `Main` (freqs.cpp:161-197) observes: the C `argc`
(program name plus positional arguments), whether the two files open, and
what `ReadStreamToBuffer` yields (`none` models any open-but-not-fully-read
failure). -/
structure MainInput where
  argc : Nat
  inputOpens : Bool
  outputOpens : Bool
  readResult : Option (List Nat)
deriving DecidableEq, Repr

/-- Result of `Main`: the process exit code (the numeric value of the
`ExitCode` enumeration, freqs.cpp:152-159) together with the bytes written to
the output file. -/
inductive MainResult where
  | exit (code : Nat) (out : List Nat)
  | undefBehavior
  | outOfFuel
deriving DecidableEq, Repr

/-- Embedding of `Main` (freqs.cpp:161-366): argument check, input open, output open,
full read, then the pipeline.  Exit codes follow the `ExitCode` enumeration:
NoError = 0, InvalidInputArgsCount = 1, InvalidInputFile = 2,
InvalidOutputFile = 3, InvalidFileFormat = 4. -/
def MainRun (inp : MainInput) : MainResult :=
  if inp.argc ≠ 3 then .exit 1 []
  else if inp.inputOpens = false then .exit 2 []
  else if inp.outputOpens = false then .exit 3 []
  else
    match inp.readResult with
    | none => .exit 2 []
    | some buffer =>
      match processBuffer buffer with
      | .formatError => .exit 4 []
      | .undefBehavior => .undefBehavior
      | .outOfFuel => .outOfFuel
      | .success out => .exit 0 out

/-- Concatenation of the recorded byte spans, in sequence order. -/
def spanBytes (buffer : List Nat) : List LetterInfo → List Nat
  | [] => []
  | li :: rest => letterSpan buffer li ++ spanBytes buffer rest

/-- The spans are contiguous starting at `start`: each span begins where the
previous one ended. -/
def contiguousFrom : Nat → List LetterInfo → Prop
  | _, [] => True
  | start, li :: rest => li.bufferOffset = start ∧ contiguousFrom (start + li.bytesCount) rest

/-- Equality of two codepoint subsequences of `letters`, given by start
index and length: equal length and element-wise equal codepoints. -/
def spanEq (letters : List Nat) (s1 n1 s2 n2 : Nat) : Prop :=
  n1 = n2 ∧ ∀ i, i < n1 → letters.getD (s1 + i) 0 = letters.getD (s2 + i) 0

/-- Equality of the codepoint subsequences referenced by two word records. -/
def contentEq (letters : List Nat) (a b : WordInfo) : Prop :=
  spanEq letters a.startLetterIndex a.lettersCount b.startLetterIndex b.lettersCount

/-- Distinctness invariant of the aggregator: the codepoint subsequences
referenced by the records are pairwise unequal. -/
def DistinctWords (letters : List Nat) (words : List WordInfo) : Prop :=
  words.Pairwise (fun a b => ¬ contentEq letters a b)

/-- The bytes of `"The cat sat. THE CAT SAT!"`. -/
def c1Input : List Nat :=
  [84, 104, 101, 32, 99, 97, 116, 32, 115, 97, 116, 46, 32,
   84, 72, 69, 32, 67, 65, 84, 32, 83, 65, 84, 33]

/-- The bytes the program actually writes for `c1Input`:
`"2 cat\n2 sat\n2 The\n"` (the word `the` is rendered with the original
bytes of its first occurrence, `The`). -/
def c1ActualOutput : List Nat :=
  [50, 32, 99, 97, 116, 10, 50, 32, 115, 97, 116, 10, 50, 32, 84, 104, 101, 10]

/-- The bytes claim C1 asserts: `"2 cat\n2 sat\n2 the\n"`. -/
def c1ClaimedOutput : List Nat :=
  [50, 32, 99, 97, 116, 10, 50, 32, 115, 97, 116, 10, 50, 32, 116, 104, 101, 10]

/-- The bytes of `"Cat cat CAT"`. -/
def c2Input : List Nat :=
  [67, 97, 116, 32, 99, 97, 116, 32, 67, 65, 84]

/-- The bytes the program writes for `c2Input`: `"3 Cat\n"`. -/
def c2Output : List Nat :=
  [51, 32, 67, 97, 116, 10]

/-- What re-encoding the folded codepoints would have produced for
`c2Input`: `"3 cat\n"`. -/
def c2Refolded : List Nat :=
  [51, 32, 99, 97, 116, 10]

theorem contLoop_ok_bound (buffer : List Nat) :
    ∀ bytesCount letter startIndex newIndex l,
      contLoop buffer bytesCount letter startIndex = .ok newIndex l →
      startIndex < newIndex ∧ (startIndex < buffer.length → newIndex ≤ buffer.length) := by
  intro bytesCount
  induction bytesCount with
  | zero =>
    intro letter startIndex newIndex l h
    simp only [contLoop, ReadResult.ok.injEq] at h
    omega
  | succ n ih =>
    intro letter startIndex newIndex l h
    cases n with
    | zero =>
      simp only [contLoop, ReadResult.ok.injEq] at h
      omega
    | succ m =>
      simp only [contLoop] at h
      split at h
      · exact absurd h (by simp)
      · split at h
        · exact absurd h (by simp)
        · have := ih _ _ _ _ h
          rename_i hlt _ _ _
          constructor
          · omega
          · intro _
            exact this.2 (by omega)

theorem readUtfLetter_ok_bound (buffer : List Nat) (startIndex newIndex letter : Nat)
    (h : ReadUtfLetter buffer startIndex = .ok newIndex letter) :
    startIndex < newIndex ∧ newIndex ≤ buffer.length := by
  rw [ReadUtfLetter] at h
  split at h
  · exact absurd h (by simp)
  · rename_i hge
    split at h
    · exact absurd h (by simp)
    · exact absurd h (by simp)
    · have := contLoop_ok_bound buffer _ _ _ _ _ h
      exact ⟨this.1, this.2 (by omega)⟩

theorem readLettersGo_no_outOfFuel (buffer : List Nat) :
    ∀ fuel byteIndex letters letterInfos,
      buffer.length ≤ byteIndex + fuel →
      readLettersGo buffer fuel byteIndex letters letterInfos ≠ .outOfFuel := by
  intro fuel
  induction fuel with
  | zero =>
    intro byteIndex letters letterInfos hle
    simp only [readLettersGo]
    rw [if_neg (by omega)]
    simp
  | succ n ih =>
    intro byteIndex letters letterInfos hle
    simp only [readLettersGo]
    split
    · split
      · simp
      · simp
      · rename_i newIndex letter hread
        have hb := readUtfLetter_ok_bound buffer byteIndex newIndex letter hread
        exact ih newIndex _ _ (by omega)
    · simp

theorem readUtfLetters_no_outOfFuel (buffer : List Nat) :
    ReadUtfLetters buffer ≠ .outOfFuel :=
  readLettersGo_no_outOfFuel buffer buffer.length 0 [] [] (by omega)

theorem readLettersGo_spans (buffer : List Nat) :
    ∀ fuel byteIndex accL accI L I,
      byteIndex ≤ buffer.length →
      readLettersGo buffer fuel byteIndex accL accI = .ok L I →
      ∃ extra, I = accI ++ extra ∧ contiguousFrom byteIndex extra ∧
        spanBytes buffer extra = buffer.drop byteIndex := by
  intro fuel
  induction fuel with
  | zero =>
    intro byteIndex accL accI L I hle h
    simp only [readLettersGo] at h
    split at h
    · exact absurd h (by simp)
    · rename_i hnlt
      simp only [LettersResult.ok.injEq] at h
      refine ⟨[], by simp [h.2], trivial, ?_⟩
      have heq : byteIndex = buffer.length := by omega
      simp [spanBytes, heq, List.drop_length]
  | succ n ih =>
    intro byteIndex accL accI L I hle h
    simp only [readLettersGo] at h
    split at h
    · split at h
      · exact absurd h (by simp)
      · exact absurd h (by simp)
      · rename_i hlt newIndex letter hread
        obtain ⟨hgt, hle2⟩ := readUtfLetter_ok_bound buffer byteIndex newIndex letter hread
        obtain ⟨extra, hI, hcont, hspan⟩ := ih newIndex _ _ L I hle2 h
        refine ⟨⟨byteIndex, newIndex - byteIndex⟩ :: extra, ?_, ⟨rfl, ?_⟩, ?_⟩
        · rw [hI, List.append_assoc]
          rfl
        · have heq : byteIndex + (newIndex - byteIndex) = newIndex := by omega
          rw [heq]
          exact hcont
        · show letterSpan buffer ⟨byteIndex, newIndex - byteIndex⟩ ++ spanBytes buffer extra =
            buffer.drop byteIndex
          rw [hspan, letterSpan]
          have h2 : buffer.drop newIndex = (buffer.drop byteIndex).drop (newIndex - byteIndex) := by
            rw [List.drop_drop]
            congr 1
            omega
          rw [h2, List.take_append_drop]
    · rename_i hnlt
      simp only [LettersResult.ok.injEq] at h
      refine ⟨[], by simp [h.2], trivial, ?_⟩
      have heq : byteIndex = buffer.length := by omega
      simp [spanBytes, heq, List.drop_length]

theorem sameLetters_iff (letters : List Nat) :
    ∀ count i j, sameLetters letters i j count = true ↔
      ∀ k, k < count → letters.getD (i + k) 0 = letters.getD (j + k) 0 := by
  intro count
  induction count with
  | zero =>
    intro i j
    simp [sameLetters]
  | succ n ih =>
    intro i j
    simp only [sameLetters]
    split
    · rename_i heq
      rw [beq_iff_eq] at heq
      rw [ih (i + 1) (j + 1)]
      constructor
      · intro h k hk
        cases k with
        | zero => simpa using heq
        | succ m =>
          have h2 := h m (by omega)
          rw [show i + 1 + m = i + (m + 1) from by omega,
            show j + 1 + m = j + (m + 1) from by omega] at h2
          exact h2
      · intro h k hk
        have h2 := h (k + 1) (by omega)
        rw [show i + (k + 1) = i + 1 + k from by omega,
          show j + (k + 1) = j + 1 + k from by omega] at h2
        exact h2
    · rename_i hne
      have hne2 : letters.getD i 0 ≠ letters.getD j 0 := by simpa using hne
      simp only [Bool.false_eq_true, false_iff]
      intro h
      exact hne2 (by simpa using h 0 (by omega))

theorem registerWord_match_iff (letters : List Nat) (word : WordInfo) (fl lc : Nat) :
    (word.lettersCount == lc &&
      sameLetters letters fl word.startLetterIndex word.lettersCount) = true ↔
    spanEq letters fl lc word.startLetterIndex word.lettersCount := by
  rw [Bool.and_eq_true, beq_iff_eq, sameLetters_iff, spanEq]
  constructor
  · rintro ⟨h1, h2⟩
    exact ⟨h1.symm, fun i hi => h2 i (by omega)⟩
  · rintro ⟨h1, h2⟩
    exact ⟨h1.symm, fun k hk => h2 k (by omega)⟩

theorem spanEq_symm (letters : List Nat) (s1 n1 s2 n2 : Nat)
    (h : spanEq letters s1 n1 s2 n2) : spanEq letters s2 n2 s1 n1 := by
  obtain ⟨h1, h2⟩ := h
  exact ⟨h1.symm, fun i hi => (h2 i (by omega)).symm⟩

theorem registerWord_mem (letters : List Nat) :
    ∀ (words : List WordInfo) (fl lc : Nat) (w : WordInfo),
      w ∈ registerWord letters words fl lc →
      (∃ v ∈ words, w.startLetterIndex = v.startLetterIndex ∧
        w.lettersCount = v.lettersCount ∧
        (w.entries = v.entries ∨ w.entries = v.entries + 1)) ∨
      (w.startLetterIndex = fl ∧ w.lettersCount = lc ∧ w.entries = 1) := by
  intro words
  induction words with
  | nil =>
    intro fl lc w hw
    simp only [registerWord, List.mem_singleton] at hw
    right
    simp [hw]
  | cons v rest ih =>
    intro fl lc w hw
    simp only [registerWord] at hw
    split at hw
    · rcases List.mem_cons.1 hw with h | h
      · exact Or.inl ⟨v, List.mem_cons_self .., by simp [h], by simp [h], Or.inr (by simp [h])⟩
      · exact Or.inl ⟨w, List.mem_cons_of_mem _ h, rfl, rfl, Or.inl rfl⟩
    · rcases List.mem_cons.1 hw with h | h
      · exact Or.inl ⟨v, List.mem_cons_self .., by simp [h], by simp [h], Or.inl (by simp [h])⟩
      · rcases ih fl lc w h with ⟨u, hu, h1, h2, h3⟩ | hr
        · exact Or.inl ⟨u, List.mem_cons_of_mem _ hu, h1, h2, h3⟩
        · exact Or.inr hr

theorem registerWord_distinct (letters : List Nat) :
    ∀ (words : List WordInfo) (fl lc : Nat),
      DistinctWords letters words →
      DistinctWords letters (registerWord letters words fl lc) := by
  intro words
  induction words with
  | nil =>
    intro fl lc _
    simp [registerWord, DistinctWords]
  | cons v rest ih =>
    intro fl lc hd
    rw [DistinctWords, List.pairwise_cons] at hd
    obtain ⟨hv, hrest⟩ := hd
    simp only [registerWord]
    split
    · rw [DistinctWords, List.pairwise_cons]
      exact ⟨fun b hb => hv b hb, hrest⟩
    · rename_i hnomatch
      rw [DistinctWords, List.pairwise_cons]
      refine ⟨?_, ih fl lc hrest⟩
      intro b hb hc
      rcases registerWord_mem letters rest fl lc b hb with ⟨u, hu, h1, h2, _⟩ | ⟨h1, h2, _⟩
      · refine hv u hu ?_
        rw [contentEq, spanEq] at hc ⊢
        rw [← h1, ← h2]
        exact hc
      · apply hnomatch
        rw [registerWord_match_iff]
        apply spanEq_symm
        rw [contentEq] at hc
        rw [h1, h2] at hc
        exact hc

theorem registerWord_entries (letters : List Nat) (words : List WordInfo) (fl lc : Nat)
    (h : ∀ w ∈ words, 1 ≤ w.entries) :
    ∀ w ∈ registerWord letters words fl lc, 1 ≤ w.entries := by
  intro w hw
  rcases registerWord_mem letters words fl lc w hw with ⟨u, hu, _, _, h3⟩ | ⟨_, _, h3⟩
  · have := h u hu
    omega
  · omega

theorem gatherGo_inv (letters : List Nat) :
    ∀ fuel letterIndex firstLetter words,
      DistinctWords letters words → (∀ w ∈ words, 1 ≤ w.entries) →
      DistinctWords letters (gatherGo letters fuel letterIndex firstLetter words) ∧
      ∀ w ∈ gatherGo letters fuel letterIndex firstLetter words, 1 ≤ w.entries := by
  intro fuel
  induction fuel with
  | zero =>
    intro letterIndex firstLetter words hd he
    cases firstLetter with
    | none => exact ⟨hd, he⟩
    | some fl =>
      exact ⟨registerWord_distinct letters words fl _ hd,
        registerWord_entries letters words fl _ he⟩
  | succ n ih =>
    intro letterIndex firstLetter words hd he
    cases firstLetter with
    | none =>
      simp only [gatherGo]
      split
      · exact ih _ _ _ hd he
      · exact ih _ _ _ hd he
    | some fl =>
      simp only [gatherGo]
      split
      · exact ih _ _ _ hd he
      · exact ih _ _ _ (registerWord_distinct letters words fl _ hd)
          (registerWord_entries letters words fl _ he)

theorem gatherWords_inv (letters : List Nat) :
    DistinctWords letters (gatherWords letters) ∧
      ∀ w ∈ gatherWords letters, 1 ≤ w.entries :=
  gatherGo_inv letters letters.length 0 none [] (by simp [DistinctWords]) (by simp)

theorem registerWord_append (letters : List Nat) :
    ∀ (words : List WordInfo) (fl lc : Nat),
      (∀ w ∈ words, ¬ spanEq letters fl lc w.startLetterIndex w.lettersCount) →
      registerWord letters words fl lc = words ++ [⟨fl, lc, 1⟩] := by
  intro words
  induction words with
  | nil =>
    intro fl lc _
    simp [registerWord]
  | cons v rest ih =>
    intro fl lc h
    simp only [registerWord]
    rw [if_neg (fun hm => h v (List.mem_cons_self ..) ((registerWord_match_iff ..).1 hm))]
    rw [ih fl lc (fun w hw => h w (List.mem_cons_of_mem _ hw))]
    simp

theorem registerWord_bump (letters : List Nat) :
    ∀ (pre : List WordInfo) (v : WordInfo) (post : List WordInfo) (fl lc : Nat),
      spanEq letters fl lc v.startLetterIndex v.lettersCount →
      (∀ w ∈ pre, ¬ spanEq letters fl lc w.startLetterIndex w.lettersCount) →
      registerWord letters (pre ++ v :: post) fl lc =
        pre ++ ⟨v.startLetterIndex, v.lettersCount, v.entries + 1⟩ :: post := by
  intro pre
  induction pre with
  | nil =>
    intro v post fl lc hv _
    simp only [List.nil_append, registerWord]
    rw [if_pos ((registerWord_match_iff ..).2 hv)]
  | cons x pre ih =>
    intro v post fl lc hv hpre
    simp only [List.cons_append, registerWord]
    rw [if_neg (fun hm => hpre x (List.mem_cons_self ..) ((registerWord_match_iff ..).1 hm))]
    simp only [List.append_eq]
    rw [ih v post fl lc hv (fun w hw => hpre w (List.mem_cons_of_mem _ hw))]


theorem isAlpha_false_iff (l : Nat) :
    IsAlpha l = false ↔ l < 65 ∨ (122 ≤ l ∧ l < 1040) ∨ 1104 ≤ l := by
  simp only [IsAlpha, alphabets, isAlphaLoop]
  split_ifs <;> simp <;> omega

theorem foldLetter_of_not_alpha (l : Nat) (h : IsAlpha l = false) : foldLetter l = l := by
  rw [isAlpha_false_iff] at h
  simp only [foldLetter, alphabets, foldLoop]
  split_ifs with hA hB
  · exfalso
    omega
  · exfalso
    omega
  · rfl

theorem gatherGo_none_of_not_alpha (letters : List Nat)
    (h : ∀ i, IsAlpha (letters.getD i 0) = false) :
    ∀ fuel letterIndex, gatherGo letters fuel letterIndex none [] = [] := by
  intro fuel
  induction fuel with
  | zero =>
    intro letterIndex
    rfl
  | succ n ih =>
    intro letterIndex
    simp only [gatherGo]
    rw [if_neg (by rw [h letterIndex]; simp)]
    exact ih (letterIndex + 1)

theorem isAlpha_getD_map_fold (letters : List Nat)
    (h : ∀ l ∈ letters, IsAlpha l = false) :
    ∀ i, IsAlpha ((letters.map foldLetter).getD i 0) = false := by
  intro i
  rw [List.getD_eq_getElem?_getD, List.getElem?_map]
  cases hx : letters[i]? with
  | none => decide
  | some a =>
    have ha := h a (List.getElem?_mem hx)
    simp [foldLetter_of_not_alpha a ha, ha]

/-- Claim C1, counterexample: on the bytes of `"The cat sat. THE CAT SAT!"`
the program writes `"2 cat\n2 sat\n2 The\n"`, not the claimed
`"2 cat\n2 sat\n2 the\n"` — the third line renders the original bytes `The`
of the first occurrence of that word, so the claimed line `2 the` is wrong. -/
theorem c1_counterexample :
    processBuffer c1Input = ProcResult.success c1ActualOutput ∧
      c1ActualOutput ≠ c1ClaimedOutput :=
  ⟨by decide, by decide⟩

/-- Claim C1, amended: for the input bytes of `"The cat sat. THE CAT SAT!"`
the program succeeds and writes exactly three lines, one per distinct
case-folded word each with count 2, in the tie-break order cat, sat, the;
each line is the count, a space, the original bytes of the first-registered
occurrence of the word, and a newline — hence `2 cat`, `2 sat`,
`2 The`. -/
theorem c1_amended :
    processBuffer c1Input = ProcResult.success c1ActualOutput := by
  decide

/-- Claim C2: the records built by `registerWord` always keep the
letter span of the first-registered occurrence (the `startLetterIndex` and
`lettersCount` of an existing record are never replaced; a new record carries
the registered occurrence with `entries = 1`), and the output stage renders
the verbatim original source bytes of that span: on `"Cat cat CAT"` the
program writes `"3 Cat\n"` (the original bytes of the first occurrence, with its
capital C), not the `"3 cat\n"` that re-encoding the folded codepoints would
produce. -/
theorem c2_first_occurrence_bytes :
    (∀ (letters : List Nat) (words : List WordInfo) (fl lc : Nat) (w : WordInfo),
      w ∈ registerWord letters words fl lc →
      (∃ v ∈ words, w.startLetterIndex = v.startLetterIndex ∧
        w.lettersCount = v.lettersCount ∧
        (w.entries = v.entries ∨ w.entries = v.entries + 1)) ∨
      (w.startLetterIndex = fl ∧ w.lettersCount = lc ∧ w.entries = 1)) ∧
    processBuffer c2Input = ProcResult.success c2Output ∧
    c2Output ≠ c2Refolded :=
  ⟨registerWord_mem, by decide, by decide⟩

/-- Witness for C2: instantiates the `registerWord` span-preservation part
at a concrete registration into an empty aggregator. -/
theorem c2_witness :
    (⟨5, 2, 1⟩ : WordInfo) ∈ registerWord [] [] 5 2 ∧
    ((∃ v ∈ ([] : List WordInfo),
        (⟨5, 2, 1⟩ : WordInfo).startLetterIndex = v.startLetterIndex ∧
        (⟨5, 2, 1⟩ : WordInfo).lettersCount = v.lettersCount ∧
        ((⟨5, 2, 1⟩ : WordInfo).entries = v.entries ∨
          (⟨5, 2, 1⟩ : WordInfo).entries = v.entries + 1)) ∨
      ((⟨5, 2, 1⟩ : WordInfo).startLetterIndex = 5 ∧
        (⟨5, 2, 1⟩ : WordInfo).lettersCount = 2 ∧
        (⟨5, 2, 1⟩ : WordInfo).entries = 1)) :=
  ⟨by decide, c2_first_occurrence_bytes.1 [] [] 5 2 ⟨5, 2, 1⟩ (by decide)⟩

/-- Claim C3, counterexample: the claim includes the endpoints 122 and 1104
in the alphabetic ranges, but `IsAlpha` tests `letter < lowerCaseEnd`
strictly, so codepoints 122 and 1104 are classified non-alphabetic. -/
theorem c3_counterexample : IsAlpha 122 = false ∧ IsAlpha 1104 = false := by
  decide

/-- Claim C3, amended: every codepoint from the `upperCaseBegin` of an alphabet
up to but excluding its `lowerCaseEnd` (65 ≤ c < 122 for Latin,
1040 ≤ c < 1104 for Cyrillic, gaps included) is classified alphabetic; the
`lowerCaseEnd` values themselves are excluded. -/
theorem c3_amended : ∀ c : Nat,
    (65 ≤ c ∧ c < 122) ∨ (1040 ≤ c ∧ c < 1104) → IsAlpha c = true := by
  intro c h
  simp only [IsAlpha, alphabets, isAlphaLoop]
  split_ifs <;> first
    | rfl
    | (exfalso; omega)

/-- Witness for C3 (amended): codepoint 97 lies in the Latin range and is
alphabetic. -/
theorem c3_amended_witness :
    ((65 ≤ 97 ∧ 97 < 122) ∨ (1040 ≤ 97 ∧ 97 < 1104)) ∧ IsAlpha 97 = true :=
  ⟨Or.inl (by decide), c3_amended 97 (Or.inl (by decide))⟩

/-- Claim C4, counterexample: for byte 253 (`0xFD`, high bit set, highest-
order zero bit among bits 6..1 at position p = 1) the claim demands
6 − 1 = 5 continuation bytes (`bytesCount = 6`) and initial value 1 (the
low bit), but `InterpretFirstUtfByte` scans only bits 5 down to 2 and falls
through, returning true with nothing assigned. -/
theorem c4_counterexample :
    InterpretFirstUtfByte 253 = FirstByteResult.unassignedTrue ∧
      InterpretFirstUtfByte 253 ≠ FirstByteResult.assigned 6 1 := by
  decide

set_option maxRecDepth 8192 in
/-- Claim C4, amended: for every first byte (< 256): if its high bit is 0
the decoder yields a 1-byte codepoint equal to the byte value; otherwise,
letting p (5 ≥ p ≥ 2) be the position of the highest-order zero bit among
bits 5 down to 2, it expects exactly 6 − p continuation bytes
(`bytesCount = 7 − p`) and takes the low p bits as the initial codepoint
value; and when the high bit is set but bits 5 down to 2 are all set, the
function returns true without assigning either output. -/
theorem c4_amended : ∀ byte : Nat, byte < 256 →
    (byte.testBit 7 = false → InterpretFirstUtfByte byte = .assigned 1 byte) ∧
    (∀ p, p < 6 →
      (2 ≤ p ∧ byte.testBit 7 = true ∧ byte.testBit p = false ∧
        (∀ q, q < 6 → p < q → byte.testBit q = true)) →
      InterpretFirstUtfByte byte = .assigned (7 - p) (byte % 2 ^ p)) ∧
    (byte.testBit 7 = true ∧ (∀ q, q < 6 → 2 ≤ q → byte.testBit q = true) →
      InterpretFirstUtfByte byte = .unassignedTrue) := by
  decide

/-- Witness for C4 (amended): byte 194 (`0xC2`) has its highest-order zero
bit at position 5, so it starts a 2-byte sequence with initial value
194 % 32 = 2. -/
theorem c4_amended_witness :
    InterpretFirstUtfByte 194 = FirstByteResult.assigned (7 - 5) (194 % 2 ^ 5) :=
  (c4_amended 194 (by decide)).2.1 5 (by decide)
    ⟨by decide, by decide, by decide, by decide⟩

/-- Claim C5: the process exit code is 1 when the argument count is wrong,
2 when the input file does not open or is not fully read, 3 when the output
file does not open, 4 when UTF-8 decoding fails, and 0 with the rendered
output on success; and decoding does fail on a buffer ending mid-sequence (a
lone `0x80`, which is taken as the start of a 2-byte sequence) and on a
violated `10xxxxxx` continuation pattern (`0xC3` followed by `0x41`). -/
theorem c5_exit_codes :
    (∀ inp : MainInput, inp.argc ≠ 3 → MainRun inp = .exit 1 []) ∧
    (∀ inp : MainInput, inp.argc = 3 → inp.inputOpens = false →
      MainRun inp = .exit 2 []) ∧
    (∀ inp : MainInput, inp.argc = 3 → inp.inputOpens = true →
      inp.outputOpens = false → MainRun inp = .exit 3 []) ∧
    (∀ inp : MainInput, inp.argc = 3 → inp.inputOpens = true →
      inp.outputOpens = true → inp.readResult = none → MainRun inp = .exit 2 []) ∧
    (∀ (inp : MainInput) (buffer : List Nat), inp.argc = 3 → inp.inputOpens = true →
      inp.outputOpens = true → inp.readResult = some buffer →
      ReadUtfLetters buffer = .fail → MainRun inp = .exit 4 []) ∧
    (∀ (inp : MainInput) (buffer out : List Nat), inp.argc = 3 →
      inp.inputOpens = true → inp.outputOpens = true → inp.readResult = some buffer →
      processBuffer buffer = .success out → MainRun inp = .exit 0 out) ∧
    ReadUtfLetters [128] = .fail ∧ ReadUtfLetters [195, 65] = .fail := by
  refine ⟨?_, ?_, ?_, ?_, ?_, ?_, by decide, by decide⟩
  · intro inp h
    simp [MainRun, h]
  · intro inp h1 h2
    simp [MainRun, h1, h2]
  · intro inp h1 h2 h3
    simp [MainRun, h1, h2, h3]
  · intro inp h1 h2 h3 h4
    simp [MainRun, h1, h2, h3, h4]
  · intro inp buffer h1 h2 h3 h4 h5
    simp [MainRun, h1, h2, h3, h4, processBuffer, h5]
  · intro inp buffer out h1 h2 h3 h4 h5
    simp [MainRun, h1, h2, h3, h4, h5]

/-- Witness for C5: a run with a wrong argument count exits with code 1. -/
theorem c5_witness : MainRun ⟨2, false, false, none⟩ = .exit 1 [] :=
  c5_exit_codes.1 ⟨2, false, false, none⟩ (by decide)

/-- Claim C6: whenever the decoder accepts a buffer, the recorded byte spans
are contiguous from offset 0 and their concatenation reproduces the buffer
exactly. -/
theorem c6_span_roundtrip : ∀ (buffer letters : List Nat) (letterInfos : List LetterInfo),
    ReadUtfLetters buffer = .ok letters letterInfos →
    contiguousFrom 0 letterInfos ∧ spanBytes buffer letterInfos = buffer := by
  intro buffer letters letterInfos h
  obtain ⟨extra, hI, hcont, hspan⟩ :=
    readLettersGo_spans buffer buffer.length 0 [] [] letters letterInfos (by omega) h
  rw [List.nil_append] at hI
  subst hI
  exact ⟨hcont, by simpa using hspan⟩

/-- Witness for C6: the buffer `"a"` followed by the 2-byte encoding of
Cyrillic `а` (codepoint 1072) decodes with spans (0,1), (1,2), which are
contiguous and re-concatenate to the buffer. -/
theorem c6_witness :
    ReadUtfLetters [97, 208, 176] = LettersResult.ok [97, 1072] [⟨0, 1⟩, ⟨1, 2⟩] ∧
      (contiguousFrom 0 [⟨0, 1⟩, ⟨1, 2⟩] ∧
        spanBytes [97, 208, 176] [⟨0, 1⟩, ⟨1, 2⟩] = [97, 208, 176]) :=
  ⟨by decide, c6_span_roundtrip [97, 208, 176] [97, 1072] [⟨0, 1⟩, ⟨1, 2⟩] (by decide)⟩

/-- Claim C7: the case-folding pass maps every codepoint lying in a descriptor
interval [upperCaseBegin, lowerCaseBegin) to the codepoint plus
(lowerCaseBegin − upperCaseBegin), leaves every other codepoint unchanged,
folds Cyrillic 1040 to 1072, and an uppercase-1040 occurrence merges into an
count of an existing lowercase-1072 word (one record with entries = 2). -/
theorem c7_case_folding : ∀ c : Nat,
    (65 ≤ c ∧ c < 97 → foldLetter c = c + (97 - 65)) ∧
    (1040 ≤ c ∧ c < 1072 → foldLetter c = c + (1072 - 1040)) ∧
    (¬(65 ≤ c ∧ c < 97) → ¬(1040 ≤ c ∧ c < 1072) → foldLetter c = c) ∧
    foldLetter 1040 = 1072 ∧
    gatherWords ([1072, 32, 1040].map foldLetter) = [⟨0, 1, 2⟩] := by
  intro c
  have hpow : (2 : Nat) ^ 32 = 4294967296 := by norm_num
  refine ⟨?_, ?_, ?_, by decide, by decide⟩
  · intro h
    simp only [foldLetter, alphabets, foldLoop]
    rw [if_pos (by omega), hpow]
    exact Nat.mod_eq_of_lt (by omega)
  · intro h
    simp only [foldLetter, alphabets, foldLoop]
    rw [if_neg (by omega), if_pos (by omega), hpow]
    exact Nat.mod_eq_of_lt (by omega)
  · intro h1 h2
    simp only [foldLetter, alphabets, foldLoop]
    rw [if_neg (by omega), if_neg (by omega)]

/-- Witness for C7: 1040 lies in the Cyrillic uppercase interval and folds
to 1040 + 32 = 1072. -/
theorem c7_witness :
    (1040 ≤ 1040 ∧ 1040 < 1072) ∧ foldLetter 1040 = 1040 + (1072 - 1040) :=
  ⟨by decide, (c7_case_folding 1040).2.1 (by decide)⟩

/-- Claim C8: `registerWord` preserves the invariants of the aggregator — the
referenced codepoint subsequences of any two records stay pairwise unequal
and every record keeps `entries ≥ 1` (both hold for everything
`gatherWords` builds) — and it increments the entries of the first (under
distinctness: the unique) equal-content record when one exists, otherwise
appends a new record with `entries = 1`. -/
theorem c8_aggregator_invariant :
    (∀ (letters : List Nat) (words : List WordInfo) (fl lc : Nat),
      DistinctWords letters words →
      DistinctWords letters (registerWord letters words fl lc)) ∧
    (∀ (letters : List Nat) (words : List WordInfo) (fl lc : Nat),
      (∀ w ∈ words, 1 ≤ w.entries) →
      ∀ w ∈ registerWord letters words fl lc, 1 ≤ w.entries) ∧
    (∀ letters : List Nat, DistinctWords letters (gatherWords letters)) ∧
    (∀ letters : List Nat, ∀ w ∈ gatherWords letters, 1 ≤ w.entries) ∧
    (∀ (letters : List Nat) (words : List WordInfo) (fl lc : Nat),
      (∀ w ∈ words, ¬ contentEq letters w ⟨fl, lc, 1⟩) →
      registerWord letters words fl lc = words ++ [⟨fl, lc, 1⟩]) ∧
    (∀ (letters : List Nat) (pre : List WordInfo) (v : WordInfo)
      (post : List WordInfo) (fl lc : Nat),
      contentEq letters v ⟨fl, lc, 1⟩ →
      (∀ w ∈ pre, ¬ contentEq letters w ⟨fl, lc, 1⟩) →
      registerWord letters (pre ++ v :: post) fl lc =
        pre ++ ⟨v.startLetterIndex, v.lettersCount, v.entries + 1⟩ :: post) :=
  ⟨fun letters words fl lc hd => registerWord_distinct letters words fl lc hd,
    fun letters words fl lc he => registerWord_entries letters words fl lc he,
    fun letters => (gatherWords_inv letters).1,
    fun letters => (gatherWords_inv letters).2,
    fun letters words fl lc h => registerWord_append letters words fl lc
      (fun w hw hsp => h w hw (spanEq_symm letters fl lc _ _ hsp)),
    fun letters pre v post fl lc hv hpre => registerWord_bump letters pre v post fl lc
      (spanEq_symm letters _ _ fl lc hv)
      (fun w hw hsp => hpre w hw (spanEq_symm letters fl lc _ _ hsp))⟩

/-- Witness for C8: registering a word into an empty aggregator appends one
record with `entries = 1`. -/
theorem c8_witness :
    (∀ w ∈ ([] : List WordInfo), ¬ contentEq [] w ⟨4, 2, 1⟩) ∧
      registerWord [] [] 4 2 = [] ++ [⟨4, 2, 1⟩] :=
  ⟨by simp, c8_aggregator_invariant.2.2.2.2.1 [] [] 4 2 (by simp)⟩

/-- Claim C9: if the decoder accepts the buffer and every decoded codepoint
is non-alphabetic, the program succeeds and writes no output bytes. -/
theorem c9_nonalpha_empty : ∀ (buffer letters : List Nat) (letterInfos : List LetterInfo),
    ReadUtfLetters buffer = .ok letters letterInfos →
    (∀ l ∈ letters, IsAlpha l = false) →
    processBuffer buffer = .success [] := by
  intro buffer letters letterInfos hread halpha
  have hg : gatherWords (letters.map foldLetter) = [] := by
    rw [gatherWords]
    have hlen : (letters.map foldLetter).length = letters.length := by simp
    rw [hlen]
    exact gatherGo_none_of_not_alpha (letters.map foldLetter)
      (isAlpha_getD_map_fold letters halpha) letters.length 0
  simp only [processBuffer, hread, hg]
  rfl

/-- Witness for C9: the two-byte buffer `". "` decodes to the non-alphabetic
codepoints 46 and 32 and produces an empty output. -/
theorem c9_witness :
    ReadUtfLetters [46, 32] = LettersResult.ok [46, 32] [⟨0, 1⟩, ⟨1, 1⟩] ∧
      (∀ l ∈ ([46, 32] : List Nat), IsAlpha l = false) ∧
      processBuffer [46, 32] = ProcResult.success [] :=
  ⟨by decide, by decide,
    c9_nonalpha_empty [46, 32] [46, 32] [⟨0, 1⟩, ⟨1, 1⟩] (by decide) (by decide)⟩

set_option maxRecDepth 8192 in
/-- Claim C10: every first byte with bit 7 set and bits 5, 4, 3, 2 all set
(such as 0xBC-0xBF and 0xFC-0xFF) makes `InterpretFirstUtfByte` return true
without assigning either output parameter, and `ReadUtfLetter` then
continues on the unassigned values (an undefined-behavior outcome) instead
of reporting a decode failure. -/
theorem c10_unassigned_fall_through : ∀ byte : Nat, byte < 256 →
    byte.testBit 7 = true → byte.testBit 5 = true → byte.testBit 4 = true →
    byte.testBit 3 = true → byte.testBit 2 = true →
    InterpretFirstUtfByte byte = .unassignedTrue ∧
      ∀ (buffer : List Nat) (i : Nat), i < buffer.length → buffer.getD i 0 = byte →
        ReadUtfLetter buffer i = .undefBehavior := by
  intro byte hb h7 h5 h4 h3 h2
  have key : ∀ b : Nat, b < 256 →
      (b.testBit 7 = true ∧ b.testBit 5 = true ∧ b.testBit 4 = true ∧
        b.testBit 3 = true ∧ b.testBit 2 = true) →
      InterpretFirstUtfByte b = .unassignedTrue := by decide
  have hfirst := key byte hb ⟨h7, h5, h4, h3, h2⟩
  refine ⟨hfirst, ?_⟩
  intro buffer i hi hgetD
  rw [ReadUtfLetter, if_neg (by omega), hgetD, hfirst]

/-- Witness for C10: byte 188 (`0xBC`) falls through unassigned and a buffer
holding just that byte reaches the undefined-behavior outcome rather than a
decode failure. -/
theorem c10_witness :
    InterpretFirstUtfByte 188 = FirstByteResult.unassignedTrue ∧
      ReadUtfLetter [188] 0 = ReadResult.undefBehavior :=
  ⟨(c10_unassigned_fall_through 188 (by decide) (by decide) (by decide) (by decide)
      (by decide) (by decide)).1,
    (c10_unassigned_fall_through 188 (by decide) (by decide) (by decide) (by decide)
      (by decide) (by decide)).2 [188] 0 (by decide) (by decide)⟩
